import Mathlib

/-!
# Verification of the Farc frame-routing helper

A shallow embedding of `src/farc.tsx`: the `Farc.frame` route registrar, its
frame-page handler, OG-image handler and developer-preview handlers, together
with the context codec the routes use.  Utilities the source imports from
sibling files that are not part of the sources under study
(`serializeJson`, `deserializeJson`, `parsePath`, `parseIntents`, the dev
utilities and the signing library) are modelled from the specification
document, and the two context-derivation helpers (`requestToContext`,
`getFrameContext`) are kept as parameters of the embedding, so every theorem
is quantified over their behaviour.
-/

/-! ## JSON values

Modelled from the spec: the context codec works on "a JSON-shaped object"
(§4 "Context codec").  JSON values are modelled as a mutual inductive family,
with object members kept in order and numbers restricted to integers (the
only numbers the frame context carries). -/

mutual
inductive Json where
  | null : Json
  | bool (b : Bool) : Json
  | num (n : Int) : Json
  | str (s : String) : Json
  | arr (elems : JsonList) : Json
  | obj (members : JsonMembers) : Json
  deriving DecidableEq, Repr

inductive JsonList where
  | nil : JsonList
  | cons (hd : Json) (tl : JsonList) : JsonList
  deriving DecidableEq, Repr

inductive JsonMembers where
  | nil : JsonMembers
  | cons (key : String) (val : Json) (tl : JsonMembers) : JsonMembers
  deriving DecidableEq, Repr
end

/-! ## JSON text rendering (the `JSON.stringify` half of the codec) -/

/-- JSON string escaping: a quote or backslash is preceded by a backslash. -/
def escChar (c : Char) : List Char := if c = '"' ∨ c = '\\' then ['\\', c] else [c]

/-- Escape every character of a string body. -/
def escapeL : List Char → List Char
  | [] => []
  | c :: t => escChar c ++ escapeL t

/-- The character of a decimal digit. -/
def digitChar (d : Nat) : Char := Char.ofNat (48 + d)

/-- Decimal rendering of a natural number, most significant digit first. -/
def natToChars (n : Nat) : List Char :=
  if n = 0 then ['0'] else (Nat.digits 10 n).reverse.map digitChar

/-- Decimal rendering of an integer. -/
def intToChars : Int → List Char
  | .ofNat m => natToChars m
  | .negSucc m => '-' :: natToChars (m + 1)

mutual
/-- Render a JSON value as JSON text (compact, no whitespace), as
`JSON.stringify` does. -/
def strJ : Json → List Char
  | .null => 'n' :: 'u' :: 'l' :: 'l' :: []
  | .bool true => 't' :: 'r' :: 'u' :: 'e' :: []
  | .bool false => 'f' :: 'a' :: 'l' :: 's' :: 'e' :: []
  | .num n => intToChars n
  | .str s => '"' :: (escapeL s.data ++ ['"'])
  | .arr .nil => ['[', ']']
  | .arr (.cons h t) => '[' :: (strJ h ++ strTailA t)
  | .obj .nil => ['{', '}']
  | .obj (.cons k v t) => '{' :: '"' :: (escapeL k.data ++ '"' :: ':' :: (strJ v ++ strTailM t))

/-- Render the remaining elements of a non-empty array, each preceded by a
comma, ending with the closing bracket. -/
def strTailA : JsonList → List Char
  | .nil => [']']
  | .cons h t => ',' :: (strJ h ++ strTailA t)

/-- Render the remaining members of a non-empty object, each preceded by a
comma, ending with the closing brace. -/
def strTailM : JsonMembers → List Char
  | .nil => ['}']
  | .cons k v t => ',' :: '"' :: (escapeL k.data ++ '"' :: ':' :: (strJ v ++ strTailM t))
end

/-! ## JSON text parsing (the `JSON.parse` half of the codec) -/

/-- Is the character a decimal digit? -/
def isDigitCh (c : Char) : Bool := 48 ≤ c.toNat && c.toNat ≤ 57

/-- Split off the longest leading run of digit characters. -/
def takeDigits : List Char → List Char × List Char
  | [] => ([], [])
  | c :: t =>
    if isDigitCh c then
      let p := takeDigits t
      (c :: p.1, p.2)
    else ([], c :: t)

/-- The numeric value of a most-significant-first digit string. -/
def charsToNat (l : List Char) : Nat := l.foldl (fun a c => 10 * a + (c.toNat - 48)) 0

/-- Parse a JSON string body (after the opening quote) up to its closing
quote, undoing backslash escapes. -/
def parseStrChars : List Char → Option (List Char × List Char)
  | [] => none
  | c :: r =>
    if c = '"' then some ([], r)
    else if c = '\\' then
      match r with
      | [] => none
      | c2 :: r2 => (parseStrChars r2).map fun p => (c2 :: p.1, p.2)
    else (parseStrChars r).map fun p => (c :: p.1, p.2)

/-- Parse the elements of a non-empty array given a parser `pj` for single
values; `fuel` bounds the number of elements. -/
def parseArrF (pj : List Char → Option (Json × List Char)) :
    Nat → List Char → Option (JsonList × List Char)
  | 0 => fun _ => none
  | fuel + 1 => fun cs =>
    match pj cs with
    | none => none
    | some (v, rest) =>
      match rest with
      | [] => none
      | c :: r2 =>
        if c = ',' then
          match parseArrF pj fuel r2 with
          | some (l, r3) => some (.cons v l, r3)
          | none => none
        else if c = ']' then some (.cons v .nil, r2)
        else none

/-- Parse the members of a non-empty object given a parser `pj` for single
values; `fuel` bounds the number of members. -/
def parseMembersF (pj : List Char → Option (Json × List Char)) :
    Nat → List Char → Option (JsonMembers × List Char)
  | 0 => fun _ => none
  | fuel + 1 => fun cs =>
    match cs with
    | [] => none
    | c :: cs1 =>
      if c = '"' then
        match parseStrChars cs1 with
        | none => none
        | some (k, r1) =>
          match r1 with
          | [] => none
          | c2 :: cs2 =>
            if c2 = ':' then
              match pj cs2 with
              | none => none
              | some (v, rest) =>
                match rest with
                | [] => none
                | c3 :: r3 =>
                  if c3 = ',' then
                    match parseMembersF pj fuel r3 with
                    | some (m, r4) => some (.cons (String.mk k) v m, r4)
                    | none => none
                  else if c3 = '}' then some (.cons (String.mk k) v .nil, r3)
                  else none
            else none
      else none

/-- Fuel-indexed recursive-descent parser for a single JSON value, returning
the value and the unconsumed remainder of the input. -/
def parseJ : Nat → List Char → Option (Json × List Char)
  | 0 => fun _ => none
  | fuel + 1 => fun cs =>
    match cs with
    | [] => none
    | c :: cs1 =>
      if isDigitCh c then
        let p := takeDigits (c :: cs1)
        some (.num (charsToNat p.1), p.2)
      else if c = '-' then
        match takeDigits cs1 with
        | ([], _) => none
        | (ds, r) => some (.num (-(charsToNat ds : Int)), r)
      else if c = '"' then
        match parseStrChars cs1 with
        | some (k, r) => some (.str (String.mk k), r)
        | none => none
      else if c = 'n' then
        if cs1.take 3 = ['u', 'l', 'l'] then some (.null, cs1.drop 3) else none
      else if c = 't' then
        if cs1.take 3 = ['r', 'u', 'e'] then some (.bool true, cs1.drop 3) else none
      else if c = 'f' then
        if cs1.take 4 = ['a', 'l', 's', 'e'] then some (.bool false, cs1.drop 4) else none
      else if c = '[' then
        match cs1 with
        | [] => none
        | c2 :: cs2 =>
          if c2 = ']' then some (.arr .nil, cs2)
          else
            match parseArrF (parseJ fuel) fuel (c2 :: cs2) with
            | some (l, r) => some (.arr l, r)
            | none => none
      else if c = '{' then
        match cs1 with
        | [] => none
        | c2 :: cs2 =>
          if c2 = '}' then some (.obj .nil, cs2)
          else
            match parseMembersF (parseJ fuel) fuel (c2 :: cs2) with
            | some (m, r) => some (.obj m, r)
            | none => none
      else none

/-! ## Percent encoding

Modelled from the spec: the codec is an "opaque serialize/decode of a
JSON-shaped object into/from a URL-safe string" (§4).  A character outside
the unreserved set is written as a percent sign followed by six hexadecimal
digits of its code point (fixed width, so decoding is unambiguous). -/

/-- Characters that survive URL encoding unchanged. -/
def urlSafe (c : Char) : Bool :=
  c.isAlphanum || c = '-' || c = '_' || c = '.' || c = '~'

/-- Upper-case hexadecimal digit character of a value below 16. -/
def hexDigitCh (n : Nat) : Char := if n < 10 then Char.ofNat (48 + n) else Char.ofNat (55 + n)

/-- Numeric value of a hexadecimal digit character. -/
def hexValOf (c : Char) : Nat := if c.toNat ≤ 57 then c.toNat - 48 else c.toNat - 55

/-- Percent-encode a single character. -/
def encChar (c : Char) : List Char :=
  if urlSafe c then [c]
  else
    ['%', hexDigitCh (c.toNat / 1048576 % 16), hexDigitCh (c.toNat / 65536 % 16),
     hexDigitCh (c.toNat / 4096 % 16), hexDigitCh (c.toNat / 256 % 16),
     hexDigitCh (c.toNat / 16 % 16), hexDigitCh (c.toNat % 16)]

/-- Percent-encode a character list. -/
def percentEncodeL : List Char → List Char
  | [] => []
  | c :: t => encChar c ++ percentEncodeL t

/-- Percent-decode a character list; fails on a malformed escape. -/
def percentDecodeL : List Char → Option (List Char)
  | [] => some []
  | c :: t =>
    if c = '%' then
      match t with
      | h1 :: h2 :: h3 :: h4 :: h5 :: h6 :: t2 =>
        (percentDecodeL t2).map fun r =>
          Char.ofNat (hexValOf h1 * 1048576 + hexValOf h2 * 65536 + hexValOf h3 * 4096 +
            hexValOf h4 * 256 + hexValOf h5 * 16 + hexValOf h6) :: r
      | _ => none
    else (percentDecodeL t).map fun r => c :: r

/-! ## The context codec itself -/

/-- Modelled from the spec: `serializeJson` (imported by `farc.tsx` from
`./utils/serializeJson.js`, not among the sources under study) renders a
JSON-shaped value as JSON text and makes the result URL-safe (§4 "Context
codec": "opaque serialize/decode of a JSON-shaped object into/from a
URL-safe string"). -/
def serializeJson (v : Json) : String := String.mk (percentEncodeL (strJ v))

/-- Modelled from the spec: `deserializeJson` (imported by `farc.tsx` from
`./utils/deserializeJson.js`, not among the sources under study) undoes the
URL encoding and parses the JSON text; a failure of either stage is the
thrown exception of `JSON.parse`, modelled as `none`. -/
def deserializeJson (s : String) : Option Json :=
  match percentDecodeL s.data with
  | none => none
  | some cs =>
    match parseJ (cs.length + 1) cs with
    | some (v, []) => some v
    | _ => none

/-! ## Paths, intents and meta tags -/

/-- Modelled from the spec: `parsePath` (imported by `farc.tsx` from
`./utils/parsePath.js`, not among the sources under study).  The spec's
route table (§6) mounts the routes at the declared path itself
(`<path>`, `<path>/image`, `<path>/dev`), so path parsing is modelled as the
identity normalisation. -/
def parsePath (path : String) : String := path

/-- A `<meta property content>` tag of the rendered head. -/
structure MetaTag where
  property : String
  content : String
  deriving DecidableEq, Repr

/-- A declarative UI control supplied by the handler (§3 "Frame Intents":
"an ordered sequence of declarative UI controls (buttons, text input)"). -/
inductive Intent where
  | button (text : String)
  | textInput (placeholder : String)
  deriving DecidableEq, Repr

/-- The protocol meta tag of the intent at (1-based) position `idx`. -/
def intentMetaTag (idx : Nat) : Intent → MetaTag
  | .button text => ⟨"fc:frame:button:" ++ toString idx, text⟩
  | .textInput placeholder => ⟨"fc:frame:input:text", placeholder⟩

/-- Translate intents into meta tags, numbering positions from `idx`. -/
def parseIntentsFrom (idx : Nat) : List Intent → List MetaTag
  | [] => []
  | i :: rest => intentMetaTag idx i :: parseIntentsFrom (idx + 1) rest

/-- Modelled from the spec: `parseIntents` (imported by `farc.tsx` from
`./utils/parseIntents.js`, not among the sources under study) translates the
handler's intent sequence into protocol meta tags, an intent having "no
identity beyond position in the sequence" (§3). -/
def parseIntents (intents : List Intent) : List MetaTag := parseIntentsFrom 1 intents

/-- JS truthiness of an optional string: `undefined` and the empty string
are falsy. -/
def truthyS : Option String → Bool
  | none => false
  | some s => s != ""

/-- JS template-literal interpolation of a `string | undefined` value:
interpolating `undefined` produces the literal text `undefined`. -/
def jsTemplate : Option String → String
  | none => "undefined"
  | some s => s

/-- `URLSearchParams.toString`, modelled without the form-encoding of the
values (the values the routes store are already URL-safe). -/
def renderQS : List (String × String) → String
  | [] => ""
  | [(k, v)] => k ++ "=" ++ v
  | (k, v) :: t => k ++ "=" ++ v ++ "&" ++ renderQS t

/-! ## The data model of a request and of the Farc instance -/

/-- The two query parameters the routes read (`c.req.query()`), already
URL-decoded by the router; an absent parameter is `none`. -/
structure QueryMap where
  previousContext : Option String
  context : Option String
  deriving DecidableEq, Repr

/-- HTTP methods. -/
inductive HMethod where
  | get | post | put | delete | patch | options | head
  deriving DecidableEq, Repr

/-- An incoming request: `url` is `c.req.url`, `baseUrl` its
origin-plus-pathname part (`url.origin + url.pathname`), `query` the parsed
query parameters. -/
structure FrameRequest where
  url : String
  baseUrl : String
  query : QueryMap
  method : HMethod
  deriving DecidableEq, Repr

/-- The method pattern a route registration matches: `hono.use` registers
for every method, `hono.get`/`hono.post` for one. -/
inductive MethodSpec where
  | all
  | only (m : HMethod)
  deriving DecidableEq, Repr

/-- One route registration: its method pattern, its path, and whether its
handler produces the response (`terminal`) or merely wraps the next handler
(the `jsxRenderer` middleware of the dev routes). -/
structure RouteEntry where
  spec : MethodSpec
  path : String
  terminal : Bool
  deriving DecidableEq, Repr

/-- Does a method pattern match a concrete method? -/
def methodMatches : MethodSpec → HMethod → Bool
  | .all, _ => true
  | .only m2, m => m2 == m

/-- The route registrations `Farc.frame(path, handler)` performs, in source
order: the frame route is `this.hono.use(parsePath(path), ...)` (all
methods, terminal), the image route `this.hono.get(parsePath(path) +
'/image', ...)`, the dev renderer `this.hono.use(parsePath(path) + '/dev',
jsxRenderer(...))` (a pass-through middleware), and the chained
`.get(...)`/`.post(...)` terminal handlers at the dev path. -/
def frameRouteEntries (path : String) : List RouteEntry :=
  [⟨.all, parsePath path, true⟩,
   ⟨.only .get, parsePath path ++ "/image", true⟩,
   ⟨.all, parsePath path ++ "/dev", false⟩,
   ⟨.only .get, parsePath path ++ "/dev", true⟩,
   ⟨.only .post, parsePath path ++ "/dev", true⟩]

/-- Is a request with the given method and path answered by a handler that
`frame(path, handler)` registered? -/
def servedBy (path : String) (m : HMethod) (target : String) : Bool :=
  (frameRouteEntries path).any fun r => r.terminal && methodMatches r.spec m && (r.path == target)

/-- The Farc instance state a route handler can see: the private
`#initialState` field and the routes registered on the wrapped Hono
instance. -/
structure FarcInstance where
  initialState : Json
  routes : List RouteEntry
  deriving DecidableEq, Repr

/-! ## The frame context -/

/-- The frame context `getFrameContext` produces: the current URL, a status
string, the snapshot `context.deriveState()` returns, and the remaining
serialisable fields of the record (§3 "Frame Context": "a plain record
holding the current URL, an optional user-defined state value, and derived
request metadata").  `deriveStateResult` models the return value of the
`deriveState` method; being a function property, `deriveState` itself is
dropped by JSON serialisation, so it is not part of `FrameContext.toJson`. -/
structure FrameContext where
  url : String
  status : String
  deriveStateResult : Json
  fields : JsonMembers
  deriving DecidableEq, Repr

/-- The JSON-shaped view of a context that `serializeJson(context)`
serialises: its data fields, without the `deriveState` function. -/
def FrameContext.toJson (c : FrameContext) : Json :=
  .obj (.cons "url" (.str c.url) (.cons "status" (.str c.status) c.fields))

/-- Concatenate two member lists. -/
def appendMembers : JsonMembers → JsonMembers → JsonMembers
  | .nil, m => m
  | .cons k v t, m => .cons k v (appendMembers t m)

/-- The JSON view of one rendered meta tag, as carried inside the serialised
previous context. -/
def metaTagJson (t : MetaTag) : Json :=
  .obj (.cons "property" (.str t.property) (.cons "content" (.str t.content) .nil))

/-- The JSON view of a list of rendered meta tags. -/
def metaTagsJsonList : List MetaTag → JsonList
  | [] => .nil
  | t :: r => .cons (metaTagJson t) (metaTagsJsonList r)

/-- The `intents` field the frame route stores in the serialised previous
context: `null` when the handler supplied no intents (the source's
`intents ? parseIntents(intents) : null`), the parsed tags otherwise. -/
def intentsJson : Option (List Intent) → Json
  | none => Json.null
  | some l => .arr (metaTagsJsonList (parseIntents l))

/-- The intent meta tags emitted into the head: nothing when the handler
supplied no intents. -/
def intentTagsOf : Option (List Intent) → List MetaTag
  | none => []
  | some l => parseIntents l

/-- The previous context serialised for the next request: the source's spread
`{...context, intents: parsedIntents, previousState: context.deriveState()}`
— the current context's fields together with the parsed intents and the
state snapshot. -/
def prevContextJson (c : FrameContext) (ints : Option (List Intent)) : Json :=
  .obj (.cons "url" (.str c.url) (.cons "status" (.str c.status)
    (appendMembers c.fields
      (.cons "intents" (intentsJson ints)
        (.cons "previousState" c.deriveStateResult .nil)))))

/-! ## The frame route -/

/-- What the handler returns (`FrameHandlerReturnType`): an optional action
path, the OG image element (kept opaque), an optional aspect-ratio string
(`imageAspectRatio` in the source) and the optional intent sequence. -/
structure HandlerResult where
  action : Option String
  image : String
  imageAspect : Option String
  intents : Option (List Intent)
  deriving DecidableEq, Repr

/-- The arguments `farc.tsx` passes to `getFrameContext`: the value of
`requestToContext(c.req)` (kept opaque as JSON), the instance's
`#initialState`, the decoded previous context, and the request URL. -/
structure GetFrameContextArgs where
  context : Json
  initialState : Json
  previousContext : Option Json
  requestUrl : String
  deriving DecidableEq, Repr

/-- The two context-derivation helpers `farc.tsx` imports whose sources are
not under study; the embedding is parameterised over them
(`requestToContext` from `./utils/requestToContext.js`, `getFrameContext`
from `./utils/getFrameContext.js`). -/
structure FrameDeps where
  requestToContext : FrameRequest → Json
  getFrameContext : GetFrameContextArgs → FrameContext

/-- The decoding of the `previousContext` query parameter shared by the
frame route and the image route: an absent or empty (falsy) parameter gives
`undefined`; otherwise the raw value goes through `deserializeJson`
unvalidated, a decode failure being the thrown `JSON.parse` exception. -/
def framePrevContext (raw : Option String) : Except String (Option Json) :=
  if truthyS raw then
    match deserializeJson ((raw).getD "") with
    | some v => .ok (some v)
    | none => .error "SyntaxError"
  else .ok none

/-- The context of the current request: `getFrameContext({context:
requestToContext(c.req), initialState: this.#initialState, previousContext,
request: c.req})`. -/
def frameContextOf (deps : FrameDeps) (inst : FarcInstance) (req : FrameRequest)
    (pc : Option Json) : FrameContext :=
  deps.getFrameContext ⟨deps.requestToContext req, inst.initialState, pc, req.url⟩

/-- The response of the frame route. -/
inductive FrameResponse where
  | redirect (location : String)
  | html (headTags : List MetaTag)
  deriving DecidableEq, Repr

/-- The meta tags of the rendered frame page head, in source order.  The
serialised previous context reaches this head only through the `postQS`
argument (the query string of the `fc:frame:post_url` tag). -/
def frameHead (ctxUrl ogQS aspect postTarget postQS : String)
    (intentTags : List MetaTag) (serCtx : String) (rawPrev : Option String) : List MetaTag :=
  [⟨"fc:frame", "vNext"⟩,
   ⟨"fc:frame:image", parsePath ctxUrl ++ "/image?" ++ ogQS⟩,
   ⟨"fc:frame:image:aspect_ratio", aspect⟩,
   ⟨"og:image", parsePath ctxUrl ++ "/image?" ++ ogQS⟩,
   ⟨"fc:frame:post_url", postTarget ++ "?" ++ postQS⟩]
  ++ intentTags
  ++ [⟨"farc:context", serCtx⟩]
  ++ (if truthyS rawPrev then [⟨"farc:prev_context", (rawPrev).getD ""⟩] else [])

/-- The html branch of the frame route (`farc.tsx` lines 102-170): run the
handler, serialise the context and the previous context for the next
request, and render the head. -/
def frameHtmlResponse (deps : FrameDeps) (handler : FrameContext → Option Json → HandlerResult)
    (inst : FarcInstance) (req : FrameRequest) (pc : Option Json) : FrameResponse :=
  let context := frameContextOf deps inst req pc
  let hr := handler context pc
  let parsedIntents := intentTagsOf hr.intents
  let serializedContext := serializeJson (FrameContext.toJson context)
  let serializedPreviousContext := serializeJson (prevContextJson context hr.intents)
  let ogSearch :=
    (if truthyS req.query.previousContext then
      [("previousContext", (req.query.previousContext).getD "")] else [])
    ++ (if serializedContext != "" then [("context", serializedContext)] else [])
  let postSearch :=
    if serializedPreviousContext != "" then
      [("previousContext", serializedPreviousContext)] else []
  .html (frameHead context.url (renderQS ogSearch)
    ((hr.imageAspect).getD "1.91:1")
    (if truthyS hr.action then req.baseUrl ++ parsePath ((hr.action).getD "") else context.url)
    (renderQS postSearch) parsedIntents serializedContext req.query.previousContext)

/-- The frame route handler (`farc.tsx` lines 79-171): decode the previous
context, derive the current context, redirect when the context URL differs
from the parsed request URL, otherwise run the handler and render the head.
The pair's second component is the Farc instance after the request. -/
def frameRoute (deps : FrameDeps) (handler : FrameContext → Option Json → HandlerResult)
    (inst : FarcInstance) (req : FrameRequest) : Except String FrameResponse × FarcInstance :=
  match framePrevContext req.query.previousContext with
  | .error e => (.error e, inst)
  | .ok pc =>
    let context := frameContextOf deps inst req pc
    if context.url = parsePath req.url then
      (.ok (frameHtmlResponse deps handler inst req pc), inst)
    else
      (.ok (.redirect (context.url ++ "?previousContext=" ++
        jsTemplate req.query.previousContext)), inst)

/-- The OG image route handler (`farc.tsx` lines 174-189): decode the
previous context and the `context` parameter, derive the context, run the
handler, answer with its image. -/
def imageRoute (deps : FrameDeps) (handler : FrameContext → Option Json → HandlerResult)
    (inst : FarcInstance) (req : FrameRequest) : Except String String × FarcInstance :=
  match framePrevContext req.query.previousContext with
  | .error e => (.error e, inst)
  | .ok pc =>
    match req.query.context with
    | none => (.error "SyntaxError", inst)
    | some s =>
      match deserializeJson s with
      | none => (.error "SyntaxError", inst)
      | some ctxJson =>
        let context := deps.getFrameContext ⟨ctxJson, inst.initialState, pc, req.url⟩
        (.ok (handler context pc).image, inst)

/-! ## The developer preview routes -/

/-- An HTTP response as the dev handlers observe it from `fetch`. -/
structure HttpResponse where
  status : Nat
  statusText : String
  body : String
  deriving DecidableEq, Repr

/-- The form fields the dev POST handler reads. -/
structure DevFormData where
  buttonIndex : Option String
  inputText : Option String
  postUrl : String
  deriving DecidableEq, Repr

/-- A request to a dev route. -/
structure DevRequest where
  url : String
  form : DevFormData
  deriving DecidableEq, Repr

/-- An ed25519 private key, as the byte list `ed25519.utils.randomPrivateKey`
returns. -/
structure SignKey where
  keyBytes : List Nat
  deriving DecidableEq, Repr

/-- The `castId` field of a frame action body. -/
structure CastId where
  fid : Nat
  hash : List Nat
  deriving DecidableEq, Repr

/-- The `FrameActionBody` record handed to the signing library. -/
structure FrameActionBody where
  url : String
  buttonIndex : Option Int
  castId : CastId
  inputText : Option String
  deriving DecidableEq, Repr

/-- The data carried by a signed frame-action message. -/
structure MessageData where
  body : FrameActionBody
  fid : Nat
  network : Nat
  timestamp : Nat
  deriving DecidableEq, Repr

/-- A signed frame-action message: its data, the key that signed it and its
hash. -/
structure SignedMessage where
  data : MessageData
  signerKey : SignKey
  hash : List Nat
  deriving DecidableEq, Repr

/-- The primitives of the external signing library, kept opaque: the message
hash, the wire encoding `Message.encode(message).finish()`, and the
timestamp the library stamps the message with. -/
structure DevCrypto where
  hashOf : MessageData → SignKey → List Nat
  encodeMessage : SignedMessage → List Nat
  timestampNow : Nat

/-- Modelled from the spec: `makeFrameAction` of the external signing
library ("a fixed sequence of calls into an external cryptographic signing
library", §1) assembles the message data, stamps it, and signs it with the
given signer. -/
def makeFrameAction (crypto : DevCrypto) (body : FrameActionBody) (fid network : Nat)
    (signer : SignKey) : SignedMessage :=
  let d : MessageData := ⟨body, fid, network, crypto.timestampNow⟩
  ⟨d, signer, crypto.hashOf d signer⟩

/-- Lower-case hexadecimal digit character. -/
def hexCharLower (n : Nat) : Char := if n < 10 then Char.ofNat (48 + n) else Char.ofNat (87 + n)

/-- Lower-case hexadecimal rendering of a byte list (`bytesToHex`). -/
def bytesToHexChars : List Nat → List Char
  | [] => []
  | b :: t => hexCharLower (b / 16 % 16) :: hexCharLower (b % 16) :: bytesToHexChars t

/-- `bytesToHex` of the noble curves utilities. -/
def bytesToHex (l : List Nat) : String := String.mk (bytesToHexChars l)

/-- JS `parseInt`: the leading optional-sign digit run, `NaN` (here `none`)
when there is none. -/
def parseIntJs (s : String) : Option Int :=
  match s.data with
  | '-' :: rest =>
    match takeDigits rest with
    | ([], _) => none
    | (ds, _) => some (-(charsToNat ds : Int))
  | cs =>
    match takeDigits cs with
    | ([], _) => none
    | (ds, _) => some ((charsToNat ds : Int))

/-- Is `pat` a prefix of the second list? -/
def isPrefixL : List Char → List Char → Bool
  | [], _ => true
  | _ :: _, [] => false
  | p :: ps, c :: cs => p == c && isPrefixL ps cs

/-- Split a list around the first occurrence of `pat`: the part before it
and the part after it. -/
def splitAtFirst (pat : List Char) : List Char → Option (List Char × List Char)
  | [] => if pat.isEmpty then some ([], []) else none
  | c :: cs =>
    if isPrefixL pat (c :: cs) then some ([], (c :: cs).drop pat.length)
    else
      match splitAtFirst pat cs with
      | some (pre, post) => some (c :: pre, post)
      | none => none

/-- JS `String.prototype.replace` with a string pattern: replace the first
occurrence only; no occurrence leaves the string unchanged. -/
def replaceFirstStr (s pat repl : String) : String :=
  match splitAtFirst pat.data s.data with
  | some (pre, post) => String.mk (pre ++ repl.data ++ post)
  | none => s

/-- The original page URL of a dev request: the request URL with the first
`/dev` removed (`c.req.url.replace('/dev', '')`). -/
def devBaseUrl (u : String) : String := replaceFirstStr u "/dev" ""

/-- Modelled from the spec: `htmlToFrame` of `./dev/utils.js` (not among the
sources under study) parses the fetched frame page for display; the model
keeps the text it was given. -/
structure DevFrame where
  sourceHtml : String
  deriving DecidableEq, Repr

/-- Modelled from the spec: `htmlToState` of `./dev/utils.js` (not among the
sources under study); the model keeps the text it was given. -/
structure DevState where
  sourceHtml : String
  deriving DecidableEq, Repr

/-- See `DevFrame`. -/
def htmlToFrame (text : String) : DevFrame := ⟨text⟩

/-- See `DevState`. -/
def htmlToState (text : String) : DevState := ⟨text⟩

/-- Modelled from the spec: `getRoutes` of `./dev/utils.js` (not among the
sources under study) lists the registered routes for the preview UI. -/
def getRoutes (_baseUrl : String) (entries : List RouteEntry) : List String :=
  entries.map fun r => r.path

/-- The props the rendered `Preview` component receives. -/
structure PreviewProps where
  baseUrl : String
  error : Option String
  frame : DevFrame
  routes : List String
  state : DevState
  deriving DecidableEq, Repr

/-- The props the rendered `Dev` component receives. -/
structure DevProps where
  baseUrl : String
  frame : DevFrame
  routes : List String
  state : DevState
  deriving DecidableEq, Repr

/-- The `untrustedData` half of the simulated callback payload. -/
structure UntrustedData where
  buttonIndex : Option Int
  castIdFid : Nat
  castIdHash : String
  fid : Nat
  inputText : Option String
  messageHash : String
  network : Nat
  timestamp : Nat
  url : String
  deriving DecidableEq, Repr

/-- The JSON body POSTed to the callback URL: the `untrustedData` record and
the hex-encoded signed message bytes (`trustedData.messageBytes`). -/
structure PostPayloadT where
  untrustedData : UntrustedData
  trustedData : String
  deriving DecidableEq, Repr

/-- The network, as the dev handlers observe it: the response of a GET of a
URL, and of a POST of a payload to a URL. -/
structure FetchOracle where
  getResponse : String → HttpResponse
  postResponse : String → PostPayloadT → HttpResponse

/-- An observable effect of a dev handler, in order of occurrence. -/
inductive DevEffect where
  | genKey (key : SignKey)
  | signFrameAction (body : FrameActionBody) (fid : Nat) (network : Nat) (signer : SignKey)
  | fetchPost (url : String) (payload : PostPayloadT)
  | fetchGet (url : String)
  deriving DecidableEq, Repr

/-- The `buttonIndex` the dev POST handler computes:
`parseInt(typeof formData.get('buttonIndex') === 'string' ? ... : '')`. -/
def devButtonIndex (form : DevFormData) : Option Int :=
  parseIntJs (match form.buttonIndex with | some s => s | none => "")

/-- The `inputText` the dev POST handler computes: a falsy form value gives
`undefined`. -/
def devInputText (form : DevFormData) : Option String :=
  if truthyS form.inputText then some ((form.inputText).getD "") else none

/-- The hard-coded placeholder cast id: fid 2 and a hash of twenty zero
bytes (`Buffer.from('00...0', 'hex')`). -/
def devCastId : CastId := ⟨2, List.replicate 20 0⟩

/-- The frame action body the dev POST handler builds. -/
def devActionBody (req : DevRequest) : FrameActionBody :=
  ⟨devBaseUrl req.url, devButtonIndex req.form, devCastId, devInputText req.form⟩

/-- The signed message the dev POST handler builds:
`makeFrameAction(frameActionBody, {fid: 2, network: 1},
new NobleEd25519Signer(privateKeyBytes))`. -/
def devMessage (crypto : DevCrypto) (key : SignKey) (req : DevRequest) : SignedMessage :=
  makeFrameAction crypto (devActionBody req) 2 1 key

/-- The JSON body the dev POST handler sends to the callback URL. -/
def devPayload (crypto : DevCrypto) (key : SignKey) (req : DevRequest) : PostPayloadT :=
  let msg := devMessage crypto key req
  ⟨⟨devButtonIndex req.form, devCastId.fid, "0x" ++ bytesToHex devCastId.hash, 2,
    devInputText req.form, "0x" ++ bytesToHex msg.hash, 1, msg.data.timestamp,
    devBaseUrl req.url⟩,
   bytesToHex (crypto.encodeMessage msg)⟩

/-- The dev GET handler (`farc.tsx` lines 214-224): fetch the original page
and render the `Dev` component from its text. -/
def devGet (oracle : FetchOracle) (inst : FarcInstance) (req : DevRequest) :
    DevProps × List DevEffect × FarcInstance :=
  let baseUrl := devBaseUrl req.url
  let response := oracle.getResponse baseUrl
  (⟨baseUrl, htmlToFrame response.body, getRoutes baseUrl inst.routes,
    htmlToState response.body⟩,
   [.fetchGet baseUrl], inst)

/-- The dev POST handler (`farc.tsx` lines 225-346): build and sign the
frame action with the ephemeral key `key` generated for this request, POST
it to the form's callback URL, fall back to refetching the original page on
a non-200 status, and render the `Preview` component.  The trace lists the
key generation, the signing call and the fetches, in order. -/
def devPost (crypto : DevCrypto) (key : SignKey) (oracle : FetchOracle)
    (inst : FarcInstance) (req : DevRequest) :
    PreviewProps × List DevEffect × FarcInstance :=
  let baseUrl := devBaseUrl req.url
  let body := devActionBody req
  let payload := devPayload crypto key req
  let response := oracle.postResponse req.form.postUrl payload
  let error := if response.status ≠ 200 then some response.statusText else none
  let finalResponse := if response.status ≠ 200 then oracle.getResponse baseUrl else response
  let text := finalResponse.body
  (⟨baseUrl, error, htmlToFrame text, getRoutes baseUrl inst.routes, htmlToState text⟩,
   [.genKey key, .signFrameAction body 2 1 key, .fetchPost req.form.postUrl payload]
     ++ (if response.status ≠ 200 then [.fetchGet baseUrl] else []),
   inst)

/-! ## Auxiliary definitions used by the theorems -/

/-- A remainder the value parser may stop in front of: empty, or starting
with a non-digit (so that a rendered number is not extended). -/
def goodRest : List Char → Bool
  | [] => true
  | c :: _ => !(isDigitCh c)

/-- Number of elements of a JSON array. -/
def numElemsA : JsonList → Nat
  | .nil => 0
  | .cons _ t => numElemsA t + 1

/-- Number of members of a JSON object. -/
def numElemsM : JsonMembers → Nat
  | .nil => 0
  | .cons _ _ t => numElemsM t + 1

/-- Membership of a value in a JSON array. -/
def memL (x : Json) : JsonList → Prop
  | .nil => False
  | .cons h t => x = h ∨ memL x t

/-- Membership of a value among the member values of a JSON object. -/
def memM (x : Json) : JsonMembers → Prop
  | .nil => False
  | .cons _ v t => x = v ∨ memM x t

/-- Is the effect a GET fetch? -/
def isFetchGet : DevEffect → Bool
  | .fetchGet _ => true
  | _ => false

/-- Is the effect a POST fetch? -/
def isFetchPost : DevEffect → Bool
  | .fetchPost _ _ => true
  | _ => false

/-- Is the effect a signing call? -/
def isSignEffect : DevEffect → Bool
  | .signFrameAction _ _ _ _ => true
  | _ => false

/-- Is the effect a key generation? -/
def isGenKeyEffect : DevEffect → Bool
  | .genKey _ => true
  | _ => false

/-! Concrete fixtures used by the witnesses. -/

/-- Opaque crypto primitives for concrete runs. -/
def wCrypto : DevCrypto := ⟨fun _ _ => [3], fun _ => [7], 99⟩

/-- A concrete ephemeral key. -/
def wKey : SignKey := ⟨[1, 2]⟩

/-- A network where the simulated callback answers 404. -/
def wOracleFail : FetchOracle :=
  ⟨fun _ => ⟨200, "OK", "fallback page"⟩, fun _ _ => ⟨404, "Not Found", "error body"⟩⟩

/-- A network where the simulated callback answers 200. -/
def wOracleOk : FetchOracle :=
  ⟨fun _ => ⟨200, "OK", "fallback page"⟩, fun _ _ => ⟨200, "OK", "callback body"⟩⟩

/-- A concrete instance. -/
def wInst : FarcInstance := ⟨Json.null, []⟩

/-- A concrete dev request. -/
def wDevReq : DevRequest := ⟨"http://x/a/dev", ⟨some "1", none, "http://cb"⟩⟩

/-- Concrete context-derivation helpers whose produced context URL matches
the request URL of `wFrameReq`. -/
def wDeps : FrameDeps :=
  ⟨fun _ => Json.null, fun _ => ⟨"http://e/a", "initial", Json.null, .nil⟩⟩

/-- A concrete handler. -/
def wHandler : FrameContext → Option Json → HandlerResult :=
  fun _ _ => ⟨none, "img", none, some [.button "go", .textInput "hint"]⟩

/-- A concrete frame request whose URL matches the context URL. -/
def wFrameReq : FrameRequest := ⟨"http://e/a", "http://e/a", ⟨none, none⟩, .get⟩

/-- A concrete frame request whose URL differs from the context URL. -/
def wFrameReqOther : FrameRequest := ⟨"http://e/b", "http://e/b", ⟨none, none⟩, .post⟩

/-! # Theorems

## The JSON codec round-trips (claim C5) -/

theorem stringMk_data (s : String) : String.mk s.data = s := rfl

theorem parseStrChars_quote (rest : List Char) : parseStrChars ('"' :: rest) = some ([], rest) := by
  rw [parseStrChars.eq_def]
  simp

theorem parseStrChars_escaped (c : Char) (t : List Char) :
    parseStrChars ('\\' :: c :: t) = (parseStrChars t).map fun p => (c :: p.1, p.2) := by
  rw [parseStrChars.eq_def]
  simp

theorem parseStrChars_other (c : Char) (t : List Char) (h1 : c ≠ '"') (h2 : c ≠ '\\') :
    parseStrChars (c :: t) = (parseStrChars t).map fun p => (c :: p.1, p.2) := by
  rw [parseStrChars.eq_def]
  simp [h1, h2]

theorem parseStrChars_escape (cs rest : List Char) :
    parseStrChars (escapeL cs ++ '"' :: rest) = some (cs, rest) := by
  induction cs with
  | nil => simpa [escapeL] using parseStrChars_quote rest
  | cons c t ih =>
    by_cases hc : c = '"' ∨ c = '\\'
    · have he : escChar c = ['\\', c] := by unfold escChar; rw [if_pos hc]
      have hcs : escapeL (c :: t) ++ '"' :: rest = '\\' :: c :: (escapeL t ++ '"' :: rest) := by
        simp [escapeL, he]
      rw [hcs, parseStrChars_escaped, ih]
      rfl
    · push_neg at hc
      have he : escChar c = [c] := by
        unfold escChar
        rw [if_neg (by simpa using hc)]
      have hcs : escapeL (c :: t) ++ '"' :: rest = c :: (escapeL t ++ '"' :: rest) := by
        simp [escapeL, he]
      rw [hcs, parseStrChars_other c _ hc.1 hc.2, ih]
      rfl

theorem digitChar_toNat {d : Nat} (h : d < 10) : (digitChar d).toNat = 48 + d := by
  interval_cases d <;> decide

theorem isDigitCh_digitChar {d : Nat} (h : d < 10) : isDigitCh (digitChar d) = true := by
  interval_cases d <;> decide

theorem natToChars_digits (n : Nat) : ∀ c ∈ natToChars n, isDigitCh c = true := by
  intro c hc
  unfold natToChars at hc
  by_cases h0 : n = 0
  · rw [if_pos h0] at hc
    simp at hc
    subst hc
    decide
  · rw [if_neg h0] at hc
    simp only [List.mem_map, List.mem_reverse] at hc
    obtain ⟨d, hd, rfl⟩ := hc
    exact isDigitCh_digitChar (Nat.digits_lt_base (by norm_num) hd)

theorem natToChars_ne_nil (n : Nat) : natToChars n ≠ [] := by
  unfold natToChars
  by_cases h0 : n = 0
  · rw [if_pos h0]; simp
  · rw [if_neg h0]
    simp [Nat.digits_ne_nil_iff_ne_zero.mpr h0]

theorem foldl_digits_eq (L : List Nat) : ∀ acc : Nat,
    L.foldl (fun a d => 10 * a + d) acc = acc * 10 ^ L.length + Nat.ofDigits 10 L.reverse := by
  induction L with
  | nil => intro acc; simp [Nat.ofDigits]
  | cons d t ih =>
    intro acc
    simp only [List.foldl_cons, List.reverse_cons, List.length_cons]
    rw [ih, Nat.ofDigits_append]
    simp only [Nat.ofDigits_singleton, List.length_reverse]
    ring

theorem charsToNat_map_digitChar (L : List Nat) (h : ∀ d ∈ L, d < 10) : ∀ acc : Nat,
    (L.map digitChar).foldl (fun a c => 10 * a + (c.toNat - 48)) acc =
      L.foldl (fun a d => 10 * a + d) acc := by
  induction L with
  | nil => intro acc; simp
  | cons d t ih =>
    intro acc
    simp only [List.map_cons, List.foldl_cons]
    rw [digitChar_toNat (h d (by simp)), Nat.add_sub_cancel_left]
    exact ih (fun x hx => h x (by simp [hx])) _

theorem charsToNat_natToChars (n : Nat) : charsToNat (natToChars n) = n := by
  unfold charsToNat natToChars
  by_cases h0 : n = 0
  · rw [if_pos h0]
    subst h0
    decide
  · rw [if_neg h0]
    rw [charsToNat_map_digitChar _
      (fun d hd => Nat.digits_lt_base (by norm_num) (List.mem_reverse.mp hd))]
    rw [foldl_digits_eq]
    simp [Nat.ofDigits_digits]

theorem takeDigits_append (ds rest : List Char) (hds : ∀ c ∈ ds, isDigitCh c = true)
    (hr : goodRest rest = true) : takeDigits (ds ++ rest) = (ds, rest) := by
  induction ds with
  | nil =>
    simp only [List.nil_append]
    cases rest with
    | nil => simp [takeDigits]
    | cons c t =>
      simp only [goodRest, Bool.not_eq_true'] at hr
      simp [takeDigits, hr]
  | cons c t ih =>
    have hc := hds c (by simp)
    simp [takeDigits, hc, ih (fun x hx => hds x (by simp [hx]))]

theorem digit_ne_rbracket {c : Char} (h : isDigitCh c = true) : c ≠ ']' := by
  intro he
  subst he
  exact absurd h (by decide)

theorem strJ_ne_nil (v : Json) : strJ v ≠ [] := by
  cases v with
  | null => simp [strJ]
  | bool b => cases b <;> simp [strJ]
  | num n =>
    cases n with
    | ofNat m => simpa [strJ, intToChars] using natToChars_ne_nil m
    | negSucc m => simp [strJ, intToChars]
  | str s => simp [strJ]
  | arr l => cases l <;> simp [strJ]
  | obj m => cases m <;> simp [strJ]

theorem strJ_length_pos (v : Json) : 1 ≤ (strJ v).length :=
  List.length_pos.mpr (strJ_ne_nil v)

theorem strJ_head_ne_rbracket (v : Json) (c : Char) (t : List Char)
    (h : strJ v = c :: t) : c ≠ ']' := by
  cases v with
  | null => simp [strJ] at h; exact h.1 ▸ by decide
  | bool b =>
    cases b <;> simp [strJ] at h <;> exact h.1 ▸ by decide
  | num n =>
    cases n with
    | ofNat m =>
      simp only [strJ, intToChars] at h
      have : isDigitCh c = true := natToChars_digits m c (by rw [h]; simp)
      exact digit_ne_rbracket this
    | negSucc m =>
      simp [strJ, intToChars] at h
      exact h.1 ▸ by decide
  | str s => simp [strJ] at h; exact h.1 ▸ by decide
  | arr l =>
    cases l <;> simp [strJ] at h <;> exact h.1 ▸ by decide
  | obj m =>
    cases m <;> simp [strJ] at h <;> exact h.1 ▸ by decide

theorem strTailA_length_pos (t : JsonList) : 1 ≤ (strTailA t).length := by
  cases t <;> simp [strTailA]

theorem strTailM_length_pos (t : JsonMembers) : 1 ≤ (strTailM t).length := by
  cases t <;> simp [strTailM]

theorem memL_strJ_length : ∀ (t : JsonList) (v : Json), memL v t →
    (strJ v).length < (strTailA t).length
  | .nil, _, hm => absurd hm (by simp [memL])
  | .cons h t2, v, hm => by
    cases hm with
    | inl he =>
      subst he
      simp only [strTailA, List.length_cons, List.length_append]
      have := strTailA_length_pos t2
      omega
    | inr hm2 =>
      have := memL_strJ_length t2 v hm2
      simp only [strTailA, List.length_cons, List.length_append]
      omega

theorem memM_strJ_length : ∀ (t : JsonMembers) (v : Json), memM v t →
    (strJ v).length < (strTailM t).length
  | .nil, _, hm => absurd hm (by simp [memM])
  | .cons k w t2, v, hm => by
    cases hm with
    | inl he =>
      subst he
      simp only [strTailM, List.length_cons, List.length_append]
      have := strTailM_length_pos t2
      omega
    | inr hm2 =>
      have := memM_strJ_length t2 v hm2
      simp only [strTailM, List.length_cons, List.length_append]
      omega

theorem numElemsA_lt_strTailA : ∀ t : JsonList, numElemsA t + 1 ≤ (strTailA t).length
  | .nil => by simp [numElemsA, strTailA]
  | .cons h t2 => by
    have h1 := numElemsA_lt_strTailA t2
    have h2 := strJ_length_pos h
    simp only [numElemsA, strTailA, List.length_cons, List.length_append]
    omega

theorem numElemsM_lt_strTailM : ∀ t : JsonMembers, numElemsM t + 1 ≤ (strTailM t).length
  | .nil => by simp [numElemsM, strTailM]
  | .cons k v t2 => by
    have h1 := numElemsM_lt_strTailM t2
    have h2 := strJ_length_pos v
    simp only [numElemsM, strTailM, List.length_cons, List.length_append]
    omega

theorem goodRest_strTailA (t : JsonList) (r : List Char) :
    goodRest (strTailA t ++ r) = true := by
  cases t <;> simp [strTailA, goodRest] <;> decide

theorem goodRest_strTailM (t : JsonMembers) (r : List Char) :
    goodRest (strTailM t ++ r) = true := by
  cases t <;> simp [strTailM, goodRest] <;> decide

theorem parseArrF_ok (pj : List Char → Option (Json × List Char)) :
    ∀ (fuel : Nat) (h : Json) (t : JsonList) (rest : List Char),
      (∀ v r, memL v (.cons h t) → goodRest r = true → pj (strJ v ++ r) = some (v, r)) →
      numElemsA t < fuel →
      parseArrF pj fuel (strJ h ++ strTailA t ++ rest) = some (JsonList.cons h t, rest) := by
  intro fuel
  induction fuel with
  | zero =>
    intro h t rest _ hf
    omega
  | succ f ih =>
    intro h t rest hel hf
    have h1 : pj (strJ h ++ (strTailA t ++ rest)) = some (h, strTailA t ++ rest) :=
      hel h _ (Or.inl rfl) (goodRest_strTailA t rest)
    rw [parseArrF.eq_def]
    simp only [List.append_assoc]
    rw [h1]
    cases t with
    | nil =>
      simp [strTailA]
    | cons h2 t2 =>
      simp only [strTailA, List.cons_append]
      have h2p : parseArrF pj f (strJ h2 ++ strTailA t2 ++ rest) = some (.cons h2 t2, rest) :=
        ih h2 t2 rest (fun v r hv hr => hel v r (Or.inr hv) hr)
          (by simp only [numElemsA] at hf; omega)
      simp only [List.append_assoc] at h2p
      simp [h2p]

theorem parseMembersF_ok (pj : List Char → Option (Json × List Char)) :
    ∀ (fuel : Nat) (k : String) (v : Json) (t : JsonMembers) (rest : List Char),
      (∀ w r, memM w (.cons k v t) → goodRest r = true → pj (strJ w ++ r) = some (w, r)) →
      numElemsM t < fuel →
      parseMembersF pj fuel
          ('"' :: (escapeL k.data ++ '"' :: ':' :: (strJ v ++ strTailM t)) ++ rest)
        = some (JsonMembers.cons k v t, rest) := by
  intro fuel
  induction fuel with
  | zero =>
    intro k v t rest _ hf
    omega
  | succ f ih =>
    intro k v t rest hel hf
    have hkey : parseStrChars (escapeL k.data ++ '"' :: (':' :: (strJ v ++ (strTailM t ++ rest))))
        = some (k.data, ':' :: (strJ v ++ (strTailM t ++ rest))) := parseStrChars_escape _ _
    have h1 : pj (strJ v ++ (strTailM t ++ rest)) = some (v, strTailM t ++ rest) :=
      hel v _ (Or.inl rfl) (goodRest_strTailM t rest)
    rw [parseMembersF.eq_def]
    simp only [List.cons_append, List.append_assoc]
    simp only [reduceIte]
    rw [hkey]
    simp only [reduceIte]
    rw [h1]
    cases t with
    | nil =>
      simp [strTailM, stringMk_data]
    | cons k2 v2 t2 =>
      simp only [strTailM, List.cons_append]
      have h2p : parseMembersF pj f
          ('"' :: (escapeL k2.data ++ '"' :: ':' :: (strJ v2 ++ strTailM t2)) ++ rest)
          = some (.cons k2 v2 t2, rest) :=
        ih k2 v2 t2 rest (fun w r hw hr => hel w r (Or.inr hw) hr)
          (by simp only [numElemsM] at hf; omega)
      simp only [List.cons_append, List.append_assoc] at h2p
      simp [h2p, stringMk_data]

@[simp] theorem isDigitCh_n : isDigitCh 'n' = false := by decide

@[simp] theorem isDigitCh_t : isDigitCh 't' = false := by decide

@[simp] theorem isDigitCh_f : isDigitCh 'f' = false := by decide

@[simp] theorem isDigitCh_quote : isDigitCh '"' = false := by decide

@[simp] theorem isDigitCh_dash : isDigitCh '-' = false := by decide

@[simp] theorem isDigitCh_lbracket : isDigitCh '[' = false := by decide

@[simp] theorem isDigitCh_rbracket : isDigitCh ']' = false := by decide

@[simp] theorem isDigitCh_lbrace : isDigitCh '{' = false := by decide

@[simp] theorem isDigitCh_rbrace : isDigitCh '}' = false := by decide

@[simp] theorem isDigitCh_comma : isDigitCh ',' = false := by decide

theorem parseJ_arr_step (f : Nat) (c : Char) (cs : List Char) (hne : c ≠ ']') :
    parseJ (f + 1) ('[' :: c :: cs) =
      (match parseArrF (parseJ f) f (c :: cs) with
        | some (l, r) => some (Json.arr l, r)
        | none => none) := by
  rw [parseJ.eq_def]
  show (if c = ']' then some (Json.arr JsonList.nil, cs)
    else (match parseArrF (parseJ f) f (c :: cs) with
      | some (l, r) => some (Json.arr l, r)
      | none => none)) = _
  rw [if_neg hne]

theorem parseJ_obj_step (f : Nat) (cs : List Char) :
    parseJ (f + 1) ('{' :: '"' :: cs) =
      (match parseMembersF (parseJ f) f ('"' :: cs) with
        | some (m, r) => some (Json.obj m, r)
        | none => none) := rfl

theorem parseJ_strJ : ∀ (fuel : Nat) (v : Json) (rest : List Char),
    (strJ v).length ≤ fuel → goodRest rest = true →
    parseJ fuel (strJ v ++ rest) = some (v, rest) := by
  intro fuel
  induction fuel with
  | zero =>
    intro v rest hle _
    have := strJ_length_pos v
    omega
  | succ f ih =>
    intro v rest hle hgr
    cases v with
    | null => rfl
    | bool b => cases b <;> rfl
    | num n =>
      cases n with
      | ofNat m =>
        obtain ⟨c, t, hct⟩ : ∃ c t, natToChars m = c :: t := by
          cases hnc : natToChars m with
          | nil => exact absurd hnc (natToChars_ne_nil m)
          | cons c t => exact ⟨c, t, rfl⟩
        have hall : ∀ x ∈ c :: t, isDigitCh x = true := by
          rw [← hct]; exact natToChars_digits m
        have hdig : isDigitCh c = true := hall c (by simp)
        have htd : takeDigits (c :: (t ++ rest)) = (c :: t, rest) := by
          have := takeDigits_append (c :: t) rest hall hgr
          simpa using this
        have hcn : charsToNat (c :: t) = m := by
          rw [← hct]; exact charsToNat_natToChars m
        have hsj : strJ (Json.num (Int.ofNat m)) = c :: t := by
          simp [strJ, intToChars, hct]
        rw [hsj, List.cons_append, parseJ.eq_def]
        simp [hdig, htd, hcn]
      | negSucc m =>
        obtain ⟨c, t, hct⟩ : ∃ c t, natToChars (m + 1) = c :: t := by
          cases hnc : natToChars (m + 1) with
          | nil => exact absurd hnc (natToChars_ne_nil (m + 1))
          | cons c t => exact ⟨c, t, rfl⟩
        have hall : ∀ x ∈ c :: t, isDigitCh x = true := by
          rw [← hct]; exact natToChars_digits (m + 1)
        have htd : takeDigits (c :: (t ++ rest)) = (c :: t, rest) := by
          have := takeDigits_append (c :: t) rest hall hgr
          simpa using this
        have hcn : charsToNat (c :: t) = m + 1 := by
          rw [← hct]; exact charsToNat_natToChars (m + 1)
        have hsj : strJ (Json.num (Int.negSucc m)) = '-' :: (c :: t) := by
          simp [strJ, intToChars, hct]
        rw [hsj, List.cons_append, List.cons_append, parseJ.eq_def]
        simp [htd, hcn, Int.negSucc_eq]
    | str s =>
      have hsj : strJ (Json.str s) = '"' :: (escapeL s.data ++ ['"']) := by simp [strJ]
      have hre : (escapeL s.data ++ ['"']) ++ rest = escapeL s.data ++ '"' :: rest := by simp
      rw [hsj, List.cons_append, hre, parseJ.eq_def]
      simp [parseStrChars_escape, stringMk_data]
    | arr l =>
      cases l with
      | nil => rfl
      | cons h t =>
        have hsj : strJ (Json.arr (.cons h t)) = '[' :: (strJ h ++ strTailA t) := by simp [strJ]
        have hlen : (strJ h).length + (strTailA t).length ≤ f := by
          rw [hsj] at hle
          simpa using hle
        have hhp := strJ_length_pos h
        have htp := strTailA_length_pos t
        obtain ⟨c, ct, hct⟩ : ∃ c ct, strJ h = c :: ct := by
          cases hs : strJ h with
          | nil => exact absurd hs (strJ_ne_nil h)
          | cons c ct => exact ⟨c, ct, rfl⟩
        have hcne : c ≠ ']' := strJ_head_ne_rbracket h c ct hct
        have harr : parseArrF (parseJ f) f (strJ h ++ (strTailA t ++ rest))
            = some (JsonList.cons h t, rest) := by
          have := parseArrF_ok (parseJ f) f h t rest
            (fun v r hv hr => by
              apply ih
              · cases hv with
                | inl he =>
                  subst he
                  omega
                | inr hm =>
                  have := memL_strJ_length t v hm
                  omega
              · exact hr)
            (by
              have := numElemsA_lt_strTailA t
              omega)
          simpa [List.append_assoc] using this
        have hback : c :: (ct ++ (strTailA t ++ rest)) = strJ h ++ (strTailA t ++ rest) := by
          rw [hct, List.cons_append]
        rw [hsj, hct]
        simp only [List.cons_append, List.append_assoc]
        rw [parseJ_arr_step f c _ hcne, hback, harr]
    | obj l =>
      cases l with
      | nil => rfl
      | cons k v t =>
        have hsj : strJ (Json.obj (.cons k v t))
            = '{' :: '"' :: (escapeL k.data ++ '"' :: ':' :: (strJ v ++ strTailM t)) := by
          simp [strJ]
        have hlen : 4 + (escapeL k.data).length + ((strJ v).length + (strTailM t).length)
            ≤ f + 1 := by
          rw [hsj] at hle
          simp only [List.length_cons, List.length_append] at hle
          omega
        have hvp := strJ_length_pos v
        have htp := strTailM_length_pos t
        have hobj : parseMembersF (parseJ f) f
            ('"' :: (escapeL k.data ++ '"' :: ':' :: (strJ v ++ strTailM t)) ++ rest)
            = some (JsonMembers.cons k v t, rest) := by
          apply parseMembersF_ok (parseJ f) f k v t rest
          · intro w r hw hr
            apply ih
            · cases hw with
              | inl he =>
                subst he
                omega
              | inr hm =>
                have := memM_strJ_length t w hm
                omega
            · exact hr
          · have := numElemsM_lt_strTailM t
            omega
        rw [hsj]
        simp only [List.cons_append, List.append_assoc]
        simp only [List.cons_append, List.append_assoc] at hobj
        rw [parseJ_obj_step, hobj]

theorem char_toNat_lt (c : Char) : c.toNat < 1114112 := by
  have h := c.valid
  rcases h with h | h
  · have : c.val.toNat < 55296 := h
    simpa [Char.toNat] using by omega
  · have : c.val.toNat < 1114112 := h.2
    simpa [Char.toNat] using this

theorem hexValOf_hexDigitCh {d : Nat} (h : d < 16) : hexValOf (hexDigitCh d) = d := by
  interval_cases d <;> decide

theorem hexDigit_lt (n k : Nat) : n / k % 16 < 16 := Nat.mod_lt _ (by norm_num)

theorem urlSafe_ne_percent {c : Char} (h : urlSafe c = true) : c ≠ '%' := by
  intro he
  subst he
  exact absurd h (by decide)

theorem percentDecodeL_encodeL (l : List Char) :
    percentDecodeL (percentEncodeL l) = some l := by
  induction l with
  | nil => rfl
  | cons c t ih =>
    by_cases hs : urlSafe c = true
    · have he : encChar c = [c] := by unfold encChar; rw [if_pos hs]
      have hne : c ≠ '%' := urlSafe_ne_percent hs
      have : percentEncodeL (c :: t) = c :: percentEncodeL t := by
        simp [percentEncodeL, he]
      rw [this, percentDecodeL.eq_def]
      simp [hne, ih]
    · have hs2 : urlSafe c = false := by simpa using hs
      have he : encChar c =
          ['%', hexDigitCh (c.toNat / 1048576 % 16), hexDigitCh (c.toNat / 65536 % 16),
           hexDigitCh (c.toNat / 4096 % 16), hexDigitCh (c.toNat / 256 % 16),
           hexDigitCh (c.toNat / 16 % 16), hexDigitCh (c.toNat % 16)] := by
        unfold encChar
        rw [if_neg (by simp [hs2])]
      have henc : percentEncodeL (c :: t) =
          '%' :: hexDigitCh (c.toNat / 1048576 % 16) :: hexDigitCh (c.toNat / 65536 % 16) ::
          hexDigitCh (c.toNat / 4096 % 16) :: hexDigitCh (c.toNat / 256 % 16) ::
          hexDigitCh (c.toNat / 16 % 16) :: hexDigitCh (c.toNat % 16) :: percentEncodeL t := by
        simp [percentEncodeL, he]
      rw [henc, percentDecodeL.eq_def]
      simp only [reduceIte, ih, Option.map_some]
      have hval : hexValOf (hexDigitCh (c.toNat / 1048576 % 16)) * 1048576 +
          hexValOf (hexDigitCh (c.toNat / 65536 % 16)) * 65536 +
          hexValOf (hexDigitCh (c.toNat / 4096 % 16)) * 4096 +
          hexValOf (hexDigitCh (c.toNat / 256 % 16)) * 256 +
          hexValOf (hexDigitCh (c.toNat / 16 % 16)) * 16 +
          hexValOf (hexDigitCh (c.toNat % 16)) = c.toNat := by
        rw [hexValOf_hexDigitCh (hexDigit_lt _ _), hexValOf_hexDigitCh (hexDigit_lt _ _),
          hexValOf_hexDigitCh (hexDigit_lt _ _), hexValOf_hexDigitCh (hexDigit_lt _ _),
          hexValOf_hexDigitCh (hexDigit_lt _ _),
          hexValOf_hexDigitCh (Nat.mod_lt _ (by norm_num))]
        have := char_toNat_lt c
        omega
      rw [hval, Char.ofNat_toNat]
      rfl

/-- C5.  The context codec round-trips: for every JSON-shaped value,
serialising it with `serializeJson` (to the URL-safe string a query
parameter carries) and decoding it back with `deserializeJson` yields the
original value. -/
theorem c5_serialize_deserialize_roundtrip (x : Json) :
    deserializeJson (serializeJson x) = some x := by
  unfold serializeJson deserializeJson
  rw [show (String.mk (percentEncodeL (strJ x))).data = percentEncodeL (strJ x) from rfl]
  rw [percentDecodeL_encodeL]
  have h := parseJ_strJ ((strJ x).length + 1) x [] (by omega) (by decide)
  rw [List.append_nil] at h
  simp only [h]

/-! ## The registered routes (claim C2) -/

/-- C2 (counterexample).  The claim says only GET and POST are served at the
frame path, but the frame route is registered with `hono.use`, which matches
every method: a PUT of the frame path is served too. -/
theorem c2_counterexample :
    servedBy "/a" HMethod.put "/a" = true ∧
      ¬(((HMethod.put = HMethod.get ∨ HMethod.put = HMethod.post) ∧ "/a" = parsePath "/a") ∨
        (HMethod.put = HMethod.get ∧ "/a" = parsePath "/a" ++ "/image") ∨
        ((HMethod.put = HMethod.get ∨ HMethod.put = HMethod.post) ∧
          "/a" = parsePath "/a" ++ "/dev")) := by
  constructor
  · rfl
  · decide

/-- C2 (amended).  `frame(path, handler)` serves: every HTTP method at the
frame path (registered with `hono.use`, so GET and POST among all others),
GET at the image path, and GET and POST at the dev path; nothing else. -/
theorem c2_routes_registered (path target : String) (m : HMethod) :
    servedBy path m target = true ↔
      (target = parsePath path ∨
       (m = .get ∧ target = parsePath path ++ "/image") ∨
       ((m = .get ∨ m = .post) ∧ target = parsePath path ++ "/dev")) := by
  cases m <;>
    simp [servedBy, frameRouteEntries, methodMatches, beq_iff_eq] <;>
    tauto

/-! ## No route mutates the instance (claim C8) -/

/-- C8.  No handler `frame()` registers mutates the Farc instance: after a
frame, image, dev GET or dev POST request the `#initialState` field and the
registered routes are exactly what they were; no context is stored
server-side. -/
theorem c8_no_instance_mutation (deps : FrameDeps)
    (handler : FrameContext → Option Json → HandlerResult) (inst : FarcInstance)
    (req : FrameRequest) (crypto : DevCrypto) (key : SignKey) (oracle : FetchOracle)
    (dreq : DevRequest) :
    (frameRoute deps handler inst req).2 = inst ∧
    (imageRoute deps handler inst req).2 = inst ∧
    (devGet oracle inst dreq).2.2 = inst ∧
    (devPost crypto key oracle inst dreq).2.2 = inst := by
  refine ⟨?_, ?_, rfl, rfl⟩
  · unfold frameRoute
    cases framePrevContext req.query.previousContext with
    | error e => rfl
    | ok pc =>
      by_cases hc : (frameContextOf deps inst req pc).url = parsePath req.url
      · simp [hc]
      · simp [hc]
  · unfold imageRoute
    split
    · rfl
    · split
      · rfl
      · split
        · rfl
        · rfl

/-! ## The frame route's happy path -/

theorem frameRoute_ok (deps : FrameDeps) (handler : FrameContext → Option Json → HandlerResult)
    (inst : FarcInstance) (req : FrameRequest) (pc : Option Json)
    (hpc : framePrevContext req.query.previousContext = .ok pc)
    (hurl : (frameContextOf deps inst req pc).url = parsePath req.url) :
    frameRoute deps handler inst req =
      (.ok (frameHtmlResponse deps handler inst req pc), inst) := by
  unfold frameRoute
  rw [hpc]
  simp [hurl]

theorem frameHtmlResponse_eq (deps : FrameDeps)
    (handler : FrameContext → Option Json → HandlerResult) (inst : FarcInstance)
    (req : FrameRequest) (pc : Option Json) :
    frameHtmlResponse deps handler inst req pc =
      .html (frameHead (frameContextOf deps inst req pc).url
        (renderQS ((if truthyS req.query.previousContext then
            [("previousContext", (req.query.previousContext).getD "")] else [])
          ++ (if serializeJson (FrameContext.toJson (frameContextOf deps inst req pc)) != "" then
              [("context", serializeJson (FrameContext.toJson (frameContextOf deps inst req pc)))]
            else [])))
        (((handler (frameContextOf deps inst req pc) pc).imageAspect).getD "1.91:1")
        (if truthyS (handler (frameContextOf deps inst req pc) pc).action then
            req.baseUrl ++ parsePath (((handler (frameContextOf deps inst req pc) pc).action).getD "")
          else (frameContextOf deps inst req pc).url)
        (renderQS (if serializeJson (prevContextJson (frameContextOf deps inst req pc)
              ((handler (frameContextOf deps inst req pc) pc).intents)) != "" then
            [("previousContext", serializeJson (prevContextJson (frameContextOf deps inst req pc)
              ((handler (frameContextOf deps inst req pc) pc).intents)))]
          else []))
        (intentTagsOf ((handler (frameContextOf deps inst req pc) pc).intents))
        (serializeJson (FrameContext.toJson (frameContextOf deps inst req pc)))
        req.query.previousContext) := rfl

/-! ## The aspect-ratio meta tag (claim C10) -/

/-- C10.  In the rendered head, the `fc:frame:image:aspect_ratio` tag (the
third meta tag) carries the handler's `imageAspectRatio` value when one was
returned and the default `1.91:1` otherwise — both cases being
`Option.getD _ "1.91:1"`. -/
theorem c10_aspect_default (deps : FrameDeps)
    (handler : FrameContext → Option Json → HandlerResult) (inst : FarcInstance)
    (req : FrameRequest) (pc : Option Json)
    (hpc : framePrevContext req.query.previousContext = .ok pc)
    (hurl : (frameContextOf deps inst req pc).url = parsePath req.url) :
    ∃ ogQS postTarget postQS intentTags serCtx,
      (frameRoute deps handler inst req).1 = .ok (.html (frameHead
        (frameContextOf deps inst req pc).url ogQS
        (((handler (frameContextOf deps inst req pc) pc).imageAspect).getD "1.91:1")
        postTarget postQS intentTags serCtx req.query.previousContext)) ∧
      (frameHead (frameContextOf deps inst req pc).url ogQS
        (((handler (frameContextOf deps inst req pc) pc).imageAspect).getD "1.91:1")
        postTarget postQS intentTags serCtx req.query.previousContext)[2]? =
        some ⟨"fc:frame:image:aspect_ratio",
          ((handler (frameContextOf deps inst req pc) pc).imageAspect).getD "1.91:1"⟩ := by
  refine ⟨renderQS ((if truthyS req.query.previousContext then
      [("previousContext", (req.query.previousContext).getD "")] else [])
    ++ (if serializeJson (FrameContext.toJson (frameContextOf deps inst req pc)) != "" then
        [("context", serializeJson (FrameContext.toJson (frameContextOf deps inst req pc)))]
      else [])),
    (if truthyS (handler (frameContextOf deps inst req pc) pc).action then
        req.baseUrl ++ parsePath (((handler (frameContextOf deps inst req pc) pc).action).getD "")
      else (frameContextOf deps inst req pc).url),
    renderQS (if serializeJson (prevContextJson (frameContextOf deps inst req pc)
          ((handler (frameContextOf deps inst req pc) pc).intents)) != "" then
        [("previousContext", serializeJson (prevContextJson (frameContextOf deps inst req pc)
          ((handler (frameContextOf deps inst req pc) pc).intents)))]
      else []),
    intentTagsOf ((handler (frameContextOf deps inst req pc) pc).intents),
    serializeJson (FrameContext.toJson (frameContextOf deps inst req pc)), ?_, ?_⟩
  · rw [frameRoute_ok deps handler inst req pc hpc hurl]
    rw [frameHtmlResponse_eq]
  · rfl

/-! ## The redirect branch (claims C9) -/

/-- C9 (counterexample).  With no incoming `previousContext` parameter, the
redirect the frame route issues still appends a `previousContext` value: the
literal string `undefined`, interpolated from JS `undefined` — not the
(absent) incoming parameter. -/
theorem c9_counterexample :
    (frameRoute wDeps wHandler wInst wFrameReqOther).1 =
      .ok (.redirect "http://e/a?previousContext=undefined") ∧
    wFrameReqOther.query.previousContext = none ∧
    "http://e/a?previousContext=undefined" ≠ "http://e/a?previousContext=" ∧
    "http://e/a?previousContext=undefined" ≠ "http://e/a" := by
  refine ⟨rfl, rfl, by decide, by decide⟩

/-- C9 (amended).  When the derived context URL differs from the parsed
request URL, the handler is never invoked and the response is a redirect to
the context URL with `?previousContext=` followed by the JS interpolation of
the incoming parameter: the parameter's (decoded) value unchanged when it is
present, the literal string `undefined` when it is absent. -/
theorem c9_redirect (deps : FrameDeps) (handler : FrameContext → Option Json → HandlerResult)
    (inst : FarcInstance) (req : FrameRequest) (pc : Option Json)
    (hpc : framePrevContext req.query.previousContext = .ok pc)
    (hne : (frameContextOf deps inst req pc).url ≠ parsePath req.url) :
    frameRoute deps handler inst req =
      (.ok (.redirect ((frameContextOf deps inst req pc).url ++ "?previousContext=" ++
        jsTemplate req.query.previousContext)), inst) ∧
    (∀ handler2 : FrameContext → Option Json → HandlerResult,
      frameRoute deps handler2 inst req = frameRoute deps handler inst req) ∧
    (∀ s, req.query.previousContext = some s → jsTemplate req.query.previousContext = s) ∧
    (req.query.previousContext = none → jsTemplate req.query.previousContext = "undefined") := by
  refine ⟨?_, ?_, ?_, ?_⟩
  · unfold frameRoute
    rw [hpc]
    simp [hne]
  · intro handler2
    unfold frameRoute
    rw [hpc]
    simp [hne]
  · intro s hs
    rw [hs]
    rfl
  · intro hs
    rw [hs]
    rfl

/-! ## Decoding the previous context (claim C7) -/

/-- C7.  In both the frame route and the image route, an absent (or empty,
hence falsy) `previousContext` parameter makes the previous context
`undefined`, and that `undefined` is what `getFrameContext` and the handler
receive; a present parameter is passed through `deserializeJson` with no
schema validation (whatever it decodes to is used as-is) and no error
recovery (a decode failure is the propagated exception). -/
theorem c7_previous_context_decoding :
    (∀ q : Option String, q = none → framePrevContext q = .ok none) ∧
    (∀ (s : String) (v : Json), deserializeJson s = some v →
      framePrevContext (some s) = .ok (some v)) ∧
    (∀ s : String, s ≠ "" → deserializeJson s = none →
      framePrevContext (some s) = .error "SyntaxError") ∧
    (∀ (deps : FrameDeps) (h1 h2 : FrameContext → Option Json → HandlerResult)
        (inst : FarcInstance) (req : FrameRequest),
      req.query.previousContext = none → (∀ c, h1 c none = h2 c none) →
      frameRoute deps h1 inst req = frameRoute deps h2 inst req) ∧
    (∀ (deps : FrameDeps) (h1 h2 : FrameContext → Option Json → HandlerResult)
        (inst : FarcInstance) (req : FrameRequest),
      req.query.previousContext = none → (∀ c, h1 c none = h2 c none) →
      imageRoute deps h1 inst req = imageRoute deps h2 inst req) := by
  refine ⟨?_, ?_, ?_, ?_, ?_⟩
  · intro q hq
    subst hq
    rfl
  · intro s v hd
    by_cases hs : s = ""
    · subst hs
      rw [show deserializeJson "" = none from rfl] at hd
      cases hd
    · simp [framePrevContext, truthyS, bne_iff_ne, hs, hd]
  · intro s hs hd
    simp [framePrevContext, truthyS, bne_iff_ne, hs, hd]
  · intro deps h1 h2 inst req hq hag
    unfold frameRoute
    rw [hq]
    by_cases hc : (frameContextOf deps inst req none).url = parsePath req.url
    · simp only [framePrevContext, truthyS]
      simp [hc, frameHtmlResponse, hag (frameContextOf deps inst req none)]
    · simp only [framePrevContext, truthyS]
      simp [hc]
  · intro deps h1 h2 inst req hq hag
    unfold imageRoute
    rw [hq]
    split
    · rfl
    · rename_i pc hps
      have hpc : pc = none := by
        have hnn : framePrevContext none = Except.ok none := rfl
        rw [hnn] at hps
        injection hps with h
        exact h.symm
      subst hpc
      split
      · rfl
      · split
        · rfl
        · simp [hag]

/-! ## Intent translation (claim C6) -/

theorem parseIntentsFrom_length (l : List Intent) :
    ∀ idx, (parseIntentsFrom idx l).length = l.length := by
  induction l with
  | nil => intro idx; rfl
  | cons a t ih => intro idx; simp [parseIntentsFrom, ih]

theorem parseIntentsFrom_get (l : List Intent) : ∀ (idx i : Nat) (hi : i < l.length),
    (parseIntentsFrom idx l)[i]? = some (intentMetaTag (idx + i) (l.get ⟨i, hi⟩)) := by
  induction l with
  | nil => intro idx i hi; simp at hi
  | cons a t ih =>
    intro idx i hi
    cases i with
    | zero => simp [parseIntentsFrom]
    | succ j =>
      have hj : j < t.length := by simpa using hi
      have heq : idx + 1 + j = idx + (j + 1) := by omega
      simp only [parseIntentsFrom, List.getElem?_cons_succ, List.get_cons_succ]
      rw [ih (idx + 1) j hj, heq]

/-- C6.  The intent list the handler returns is translated into protocol
meta tags emitted in the head in list order: the head is a fixed prefix of
five tags, then one tag per intent in sequence (the tag of the intent at
position `i` carries index `i + 1`), then the trailing tags; a handler that
returns no intents contributes no intent tags. -/
theorem c6_intents_in_order (deps : FrameDeps)
    (handler : FrameContext → Option Json → HandlerResult) (inst : FarcInstance)
    (req : FrameRequest) (pc : Option Json)
    (hpc : framePrevContext req.query.previousContext = .ok pc)
    (hurl : (frameContextOf deps inst req pc).url = parsePath req.url) :
    (∃ pre post, pre.length = 5 ∧
      (frameRoute deps handler inst req).1 = .ok (.html
        (pre ++ intentTagsOf ((handler (frameContextOf deps inst req pc) pc).intents) ++ post))) ∧
    ((handler (frameContextOf deps inst req pc) pc).intents = none →
      intentTagsOf ((handler (frameContextOf deps inst req pc) pc).intents) = []) ∧
    (∀ l, (handler (frameContextOf deps inst req pc) pc).intents = some l →
      intentTagsOf ((handler (frameContextOf deps inst req pc) pc).intents) = parseIntents l) ∧
    (∀ l : List Intent, (parseIntents l).length = l.length ∧
      ∀ (i : Nat) (hi : i < l.length),
        (parseIntents l)[i]? = some (intentMetaTag (i + 1) (l.get ⟨i, hi⟩))) := by
  refine ⟨?_, ?_, ?_, ?_⟩
  · refine ⟨[⟨"fc:frame", "vNext"⟩,
      ⟨"fc:frame:image", parsePath (frameContextOf deps inst req pc).url ++ "/image?" ++
        renderQS ((if truthyS req.query.previousContext then
            [("previousContext", (req.query.previousContext).getD "")] else [])
          ++ (if serializeJson (FrameContext.toJson (frameContextOf deps inst req pc)) != "" then
              [("context", serializeJson (FrameContext.toJson (frameContextOf deps inst req pc)))]
            else []))⟩,
      ⟨"fc:frame:image:aspect_ratio",
        ((handler (frameContextOf deps inst req pc) pc).imageAspect).getD "1.91:1"⟩,
      ⟨"og:image", parsePath (frameContextOf deps inst req pc).url ++ "/image?" ++
        renderQS ((if truthyS req.query.previousContext then
            [("previousContext", (req.query.previousContext).getD "")] else [])
          ++ (if serializeJson (FrameContext.toJson (frameContextOf deps inst req pc)) != "" then
              [("context", serializeJson (FrameContext.toJson (frameContextOf deps inst req pc)))]
            else []))⟩,
      ⟨"fc:frame:post_url",
        (if truthyS (handler (frameContextOf deps inst req pc) pc).action then
            req.baseUrl ++ parsePath (((handler (frameContextOf deps inst req pc) pc).action).getD "")
          else (frameContextOf deps inst req pc).url) ++ "?" ++
        renderQS (if serializeJson (prevContextJson (frameContextOf deps inst req pc)
              ((handler (frameContextOf deps inst req pc) pc).intents)) != "" then
            [("previousContext", serializeJson (prevContextJson (frameContextOf deps inst req pc)
              ((handler (frameContextOf deps inst req pc) pc).intents)))]
          else [])⟩],
      [⟨"farc:context", serializeJson (FrameContext.toJson (frameContextOf deps inst req pc))⟩]
        ++ (if truthyS req.query.previousContext then
          [⟨"farc:prev_context", (req.query.previousContext).getD ""⟩] else []), rfl, ?_⟩
    rw [frameRoute_ok deps handler inst req pc hpc hurl, frameHtmlResponse_eq]
    simp [frameHead]
  · intro h
    simp [intentTagsOf, h]
  · intro l h
    simp [intentTagsOf, h]
  · intro l
    constructor
    · exact parseIntentsFrom_length l 1
    · intro i hi
      have := parseIntentsFrom_get l 1 i hi
      rwa [Nat.add_comm 1 i] at this

/-! ## The serialised previous context (claim C4) -/

theorem encChar_ne_nil (c : Char) : encChar c ≠ [] := by
  unfold encChar
  split <;> simp

theorem serializeJson_obj_ne_empty (m : JsonMembers) : serializeJson (Json.obj m) ≠ "" := by
  unfold serializeJson
  intro h
  have hd : percentEncodeL (strJ (Json.obj m)) = [] := congrArg String.data h
  cases hs : strJ (Json.obj m) with
  | nil => exact absurd hs (strJ_ne_nil _)
  | cons c t =>
    rw [hs] at hd
    simp only [percentEncodeL, List.append_eq_nil] at hd
    exact absurd hd.1 (encChar_ne_nil c)

theorem prevContextJson_serialize_ne_empty (c : FrameContext) (ints : Option (List Intent)) :
    serializeJson (prevContextJson c ints) ≠ "" :=
  serializeJson_obj_ne_empty _

/-- C4.  The previous context for the next request — the current context's
fields together with the parsed intents and the `deriveState()` snapshot,
i.e. `prevContextJson` — is serialised and carried solely in the
`previousContext` query parameter of the `fc:frame:post_url` meta tag: the
rendered head receives it only through the post-URL query-string slot, the
tag at position 4 is the only tag that depends on that slot, and the Farc
instance after the request is unchanged (nothing is stored server-side). -/
theorem c4_previous_context_carried (deps : FrameDeps)
    (handler : FrameContext → Option Json → HandlerResult) (inst : FarcInstance)
    (req : FrameRequest) (pc : Option Json)
    (hpc : framePrevContext req.query.previousContext = .ok pc)
    (hurl : (frameContextOf deps inst req pc).url = parsePath req.url) :
    (∃ ogQS aspect postTarget intentTags serCtx,
      (frameRoute deps handler inst req).1 = .ok (.html (frameHead
        (frameContextOf deps inst req pc).url ogQS aspect postTarget
        ("previousContext=" ++ serializeJson (prevContextJson (frameContextOf deps inst req pc)
          ((handler (frameContextOf deps inst req pc) pc).intents)))
        intentTags serCtx req.query.previousContext))) ∧
    (∀ (u o a p q s : String) (intentTags : List MetaTag) (rawPrev : Option String),
      (frameHead u o a p q intentTags s rawPrev)[4]? =
        some ⟨"fc:frame:post_url", p ++ "?" ++ q⟩) ∧
    (∀ (u o a p q1 q2 s : String) (intentTags : List MetaTag) (rawPrev : Option String),
      (frameHead u o a p q1 intentTags s rawPrev).eraseIdx 4 =
        (frameHead u o a p q2 intentTags s rawPrev).eraseIdx 4) ∧
    (frameRoute deps handler inst req).2 = inst := by
  refine ⟨?_, ?_, ?_, ?_⟩
  · refine ⟨renderQS ((if truthyS req.query.previousContext then
        [("previousContext", (req.query.previousContext).getD "")] else [])
      ++ (if serializeJson (FrameContext.toJson (frameContextOf deps inst req pc)) != "" then
          [("context", serializeJson (FrameContext.toJson (frameContextOf deps inst req pc)))]
        else [])),
      ((handler (frameContextOf deps inst req pc) pc).imageAspect).getD "1.91:1",
      (if truthyS (handler (frameContextOf deps inst req pc) pc).action then
          req.baseUrl ++ parsePath (((handler (frameContextOf deps inst req pc) pc).action).getD "")
        else (frameContextOf deps inst req pc).url),
      intentTagsOf ((handler (frameContextOf deps inst req pc) pc).intents),
      serializeJson (FrameContext.toJson (frameContextOf deps inst req pc)), ?_⟩
    have hne := prevContextJson_serialize_ne_empty (frameContextOf deps inst req pc)
      ((handler (frameContextOf deps inst req pc) pc).intents)
    have hne2 : (serializeJson (prevContextJson (frameContextOf deps inst req pc)
        ((handler (frameContextOf deps inst req pc) pc).intents)) != "") = true := by
      simpa [bne_iff_ne] using hne
    rw [frameRoute_ok deps handler inst req pc hpc hurl]
    simp [frameHtmlResponse_eq, hne2, renderQS]
  · intro u o a p q s intentTags rawPrev
    simp [frameHead]
  · intro u o a p q1 q2 s intentTags rawPrev
    simp [frameHead, List.eraseIdx]
  · unfold frameRoute
    cases framePrevContext req.query.previousContext with
    | error e => rfl
    | ok pc2 =>
      by_cases hc : (frameContextOf deps inst req pc2).url = parsePath req.url
      · simp [hc]
      · simp [hc]

/-! ## The developer preview POST handler (claims C1 and C3) -/

/-- C1.  In the dev POST handler, a non-200 response from the simulated
callback makes the handler record the response's status text as the
preview's error string and perform exactly one fallback GET of the original
page URL (the request URL with `/dev` removed), whose body the rendered
`Preview` receives; a 200 response leaves the error `undefined` and causes
no fallback fetch, the preview receiving the callback response's body. -/
theorem c1_dev_post_error_fallback (crypto : DevCrypto) (key : SignKey) (oracle : FetchOracle)
    (inst : FarcInstance) (req : DevRequest) :
    ((oracle.postResponse req.form.postUrl (devPayload crypto key req)).status ≠ 200 →
      (devPost crypto key oracle inst req).1.error =
        some (oracle.postResponse req.form.postUrl (devPayload crypto key req)).statusText ∧
      ((devPost crypto key oracle inst req).2.1.filter isFetchGet) =
        [.fetchGet (devBaseUrl req.url)] ∧
      (devPost crypto key oracle inst req).1.frame =
        htmlToFrame (oracle.getResponse (devBaseUrl req.url)).body ∧
      (devPost crypto key oracle inst req).1.state =
        htmlToState (oracle.getResponse (devBaseUrl req.url)).body) ∧
    ((oracle.postResponse req.form.postUrl (devPayload crypto key req)).status = 200 →
      (devPost crypto key oracle inst req).1.error = none ∧
      ((devPost crypto key oracle inst req).2.1.filter isFetchGet) = [] ∧
      (devPost crypto key oracle inst req).1.frame =
        htmlToFrame (oracle.postResponse req.form.postUrl (devPayload crypto key req)).body ∧
      (devPost crypto key oracle inst req).1.state =
        htmlToState (oracle.postResponse req.form.postUrl (devPayload crypto key req)).body) := by
  constructor
  · intro h
    refine ⟨?_, ?_, ?_, ?_⟩ <;>
      simp [devPost, h, isFetchGet, isFetchPost, isSignEffect, isGenKeyEffect,
        List.filter_append, List.filter]
  · intro h
    refine ⟨?_, ?_, ?_, ?_⟩ <;>
      simp [devPost, h, isFetchGet, isFetchPost, isSignEffect, isGenKeyEffect,
        List.filter_append, List.filter]

/-- C3.  Every invocation of the dev POST handler uses the ephemeral key
generated for that request: the trace holds exactly one key generation (of
that key), exactly one signing call — building the frame-action body with
the hard-coded cast id (fid 2, hash of twenty zero bytes) and signing with
fid 2, network 1 and that same key — and exactly one POST fetch, addressed
to the `postUrl` form field and carrying the resulting message payload. -/
theorem c3_dev_post_signing (crypto : DevCrypto) (key : SignKey) (oracle : FetchOracle)
    (inst : FarcInstance) (req : DevRequest) :
    ((devPost crypto key oracle inst req).2.1.filter isFetchPost) =
      [.fetchPost req.form.postUrl (devPayload crypto key req)] ∧
    ((devPost crypto key oracle inst req).2.1.filter isSignEffect) =
      [.signFrameAction (devActionBody req) 2 1 key] ∧
    ((devPost crypto key oracle inst req).2.1.filter isGenKeyEffect) = [.genKey key] ∧
    (devActionBody req).castId = ⟨2, List.replicate 20 0⟩ ∧
    (devActionBody req).url = devBaseUrl req.url ∧
    (devMessage crypto key req).signerKey = key ∧
    (devMessage crypto key req).data.fid = 2 ∧
    (devMessage crypto key req).data.network = 1 ∧
    (devPayload crypto key req).untrustedData.fid = 2 ∧
    (devPayload crypto key req).untrustedData.network = 1 ∧
    (devPayload crypto key req).untrustedData.castIdHash =
      "0x0000000000000000000000000000000000000000" := by
  refine ⟨?_, ?_, ?_, rfl, rfl, rfl, rfl, rfl, rfl, rfl, ?_⟩
  · by_cases h : (oracle.postResponse req.form.postUrl (devPayload crypto key req)).status ≠ 200 <;>
      simp [devPost, h, isFetchPost, isFetchGet, List.filter_append, List.filter]
  · by_cases h : (oracle.postResponse req.form.postUrl (devPayload crypto key req)).status ≠ 200 <;>
      simp [devPost, h, isSignEffect, List.filter_append, List.filter]
  · by_cases h : (oracle.postResponse req.form.postUrl (devPayload crypto key req)).status ≠ 200 <;>
      simp [devPost, h, isGenKeyEffect, List.filter_append, List.filter]
  · rfl

/-! ## Concrete witnesses -/

/-- Witness for C1: at a concrete request, a 404 callback yields the
`Not Found` error string, one fallback fetch and the fallback page in the
preview; a 200 callback yields no error, no fallback fetch and the callback
body in the preview. -/
theorem c1_witness :
    ((devPost wCrypto wKey wOracleFail wInst wDevReq).1.error = some "Not Found" ∧
      ((devPost wCrypto wKey wOracleFail wInst wDevReq).2.1.filter isFetchGet) =
        [.fetchGet (devBaseUrl wDevReq.url)] ∧
      (devPost wCrypto wKey wOracleFail wInst wDevReq).1.frame =
        htmlToFrame (wOracleFail.getResponse (devBaseUrl wDevReq.url)).body ∧
      (devPost wCrypto wKey wOracleFail wInst wDevReq).1.state =
        htmlToState (wOracleFail.getResponse (devBaseUrl wDevReq.url)).body) ∧
    ((devPost wCrypto wKey wOracleOk wInst wDevReq).1.error = none ∧
      ((devPost wCrypto wKey wOracleOk wInst wDevReq).2.1.filter isFetchGet) = [] ∧
      (devPost wCrypto wKey wOracleOk wInst wDevReq).1.frame =
        htmlToFrame (wOracleOk.postResponse wDevReq.form.postUrl
          (devPayload wCrypto wKey wDevReq)).body ∧
      (devPost wCrypto wKey wOracleOk wInst wDevReq).1.state =
        htmlToState (wOracleOk.postResponse wDevReq.form.postUrl
          (devPayload wCrypto wKey wDevReq)).body) :=
  ⟨(c1_dev_post_error_fallback wCrypto wKey wOracleFail wInst wDevReq).1 (by decide),
   (c1_dev_post_error_fallback wCrypto wKey wOracleOk wInst wDevReq).2 rfl⟩

/-- Witness for C4 at a concrete request whose context URL matches. -/
theorem c4_witness :
    (∃ ogQS aspect postTarget intentTags serCtx,
      (frameRoute wDeps wHandler wInst wFrameReq).1 = .ok (.html (frameHead
        (frameContextOf wDeps wInst wFrameReq none).url ogQS aspect postTarget
        ("previousContext=" ++ serializeJson (prevContextJson
          (frameContextOf wDeps wInst wFrameReq none)
          ((wHandler (frameContextOf wDeps wInst wFrameReq none) none).intents)))
        intentTags serCtx wFrameReq.query.previousContext))) ∧
    (∀ (u o a p q s : String) (intentTags : List MetaTag) (rawPrev : Option String),
      (frameHead u o a p q intentTags s rawPrev)[4]? =
        some ⟨"fc:frame:post_url", p ++ "?" ++ q⟩) ∧
    (∀ (u o a p q1 q2 s : String) (intentTags : List MetaTag) (rawPrev : Option String),
      (frameHead u o a p q1 intentTags s rawPrev).eraseIdx 4 =
        (frameHead u o a p q2 intentTags s rawPrev).eraseIdx 4) ∧
    (frameRoute wDeps wHandler wInst wFrameReq).2 = wInst :=
  c4_previous_context_carried wDeps wHandler wInst wFrameReq none rfl rfl

/-- Witness for C6 at a concrete request with two intents. -/
theorem c6_witness :
    (∃ pre post, pre.length = 5 ∧
      (frameRoute wDeps wHandler wInst wFrameReq).1 = .ok (.html
        (pre ++ intentTagsOf ((wHandler (frameContextOf wDeps wInst wFrameReq none) none).intents)
          ++ post))) ∧
    ((wHandler (frameContextOf wDeps wInst wFrameReq none) none).intents = none →
      intentTagsOf ((wHandler (frameContextOf wDeps wInst wFrameReq none) none).intents) = []) ∧
    (∀ l, (wHandler (frameContextOf wDeps wInst wFrameReq none) none).intents = some l →
      intentTagsOf ((wHandler (frameContextOf wDeps wInst wFrameReq none) none).intents) =
        parseIntents l) ∧
    (∀ l : List Intent, (parseIntents l).length = l.length ∧
      ∀ (i : Nat) (hi : i < l.length),
        (parseIntents l)[i]? = some (intentMetaTag (i + 1) (l.get ⟨i, hi⟩))) :=
  c6_intents_in_order wDeps wHandler wInst wFrameReq none rfl rfl

/-- Witness for C7: an absent parameter decodes to `undefined`, and a
present well-formed one is passed through verbatim. -/
theorem c7_witness :
    framePrevContext none = .ok none ∧
      framePrevContext (some "null") = .ok (some Json.null) :=
  ⟨c7_previous_context_decoding.1 none rfl,
   c7_previous_context_decoding.2.1 "null" Json.null (by decide)⟩

/-- Witness for C9 at a concrete request whose context URL differs. -/
theorem c9_witness :
    frameRoute wDeps wHandler wInst wFrameReqOther =
      (.ok (.redirect ((frameContextOf wDeps wInst wFrameReqOther none).url ++
        "?previousContext=" ++ jsTemplate wFrameReqOther.query.previousContext)), wInst) ∧
    (∀ handler2 : FrameContext → Option Json → HandlerResult,
      frameRoute wDeps handler2 wInst wFrameReqOther =
        frameRoute wDeps wHandler wInst wFrameReqOther) ∧
    (∀ s, wFrameReqOther.query.previousContext = some s →
      jsTemplate wFrameReqOther.query.previousContext = s) ∧
    (wFrameReqOther.query.previousContext = none →
      jsTemplate wFrameReqOther.query.previousContext = "undefined") :=
  c9_redirect wDeps wHandler wInst wFrameReqOther none rfl (by decide)

/-- Witness for C10 at a concrete request (the handler returns no aspect
ratio, so the tag carries the default). -/
theorem c10_witness :
    ∃ ogQS postTarget postQS intentTags serCtx,
      (frameRoute wDeps wHandler wInst wFrameReq).1 = .ok (.html (frameHead
        (frameContextOf wDeps wInst wFrameReq none).url ogQS
        (((wHandler (frameContextOf wDeps wInst wFrameReq none) none).imageAspect).getD "1.91:1")
        postTarget postQS intentTags serCtx wFrameReq.query.previousContext)) ∧
      (frameHead (frameContextOf wDeps wInst wFrameReq none).url ogQS
        (((wHandler (frameContextOf wDeps wInst wFrameReq none) none).imageAspect).getD "1.91:1")
        postTarget postQS intentTags serCtx wFrameReq.query.previousContext)[2]? =
        some ⟨"fc:frame:image:aspect_ratio",
          ((wHandler (frameContextOf wDeps wInst wFrameReq none) none).imageAspect).getD "1.91:1"⟩ :=
  c10_aspect_default wDeps wHandler wInst wFrameReq none rfl rfl
